import Mathlib

/-!
Verification of the emulated device management core (`axdevice`):
shallow embedding of `src/lifecycle.rs`, `src/notify/queue.rs`,
`src/notify/poll.rs`, `src/notify/manager.rs` and `src/registry.rs`,
with theorems settling the specification's claims about them.

Machine integers are modelled as `Nat` with explicit `% 2^w` where
wrapping matters; bit shifts/masks on the packed lifecycle word are
written as `* 2^24`, `/ 2^24`, `% 2^24` (the word layout is
`[state(8 bits) | access_count(24 bits)]`).
-/

namespace Axdevice

/-! ## Lifecycle (`src/lifecycle.rs`) -/

/-- Device lifecycle states (`DeviceState` in `lifecycle.rs`). -/
inductive DeviceState where
  | Active
  | Removing
  | Removed
deriving DecidableEq, Repr

namespace SC

/-- `StateAndCount::STATE_SHIFT = 24`; the count mask is `2^24 - 1`. -/
def countMask : Nat := 2 ^ 24 - 1

/-- The raw 8-bit state field, `w >> 24`. -/
def stateBits (w : Nat) : Nat := w / 2 ^ 24

/-- `StateAndCount::count`: `w & COUNT_MASK`. -/
def countOf (w : Nat) : Nat := w % 2 ^ 24

/-- `StateAndCount::state`: decode the state field
(`0 => Active, 1 => Removing, _ => Removed`). -/
def stateOf (w : Nat) : DeviceState :=
  match w / 2 ^ 24 with
  | 0 => .Active
  | 1 => .Removing
  | _ => .Removed

/-- `StateAndCount::new`: Active state, zero count. -/
def newWord : Nat := 0

/-- `StateAndCount::try_acquire`, sequentialised (the CAS loop commits
exactly one load-check-increment): returns the updated word on success,
the observed state on failure.  The word is unchanged on failure.
`state` is `w >> 24` and `count` is `w & COUNT_MASK`, written inline. -/
def tryAcquire (w : Nat) : Except DeviceState Nat :=
  if w / 2 ^ 24 ≠ 0 then
    .error (if w / 2 ^ 24 = 1 then .Removing else .Removed)
  else if w % 2 ^ 24 = countMask then
    .error .Active
  else
    .ok (w / 2 ^ 24 * 2 ^ 24 + (w % 2 ^ 24 + 1))

/-- `StateAndCount::release`: unconditional wrapping `fetch_sub(1)` on the
whole 32-bit word, no count-is-zero guard. -/
def releaseW (w : Nat) : Nat := (w + (2 ^ 32 - 1)) % 2 ^ 32

/-- `StateAndCount::set_removing`: replace the state field with Removing,
preserving the count. -/
def setRemoving (w : Nat) : Nat := 1 * 2 ^ 24 + w % 2 ^ 24

/-- `StateAndCount::set_removed`: store `(Removed, 0)`. -/
def setRemoved : Nat := 2 * 2 ^ 24

/-- `DeviceLifecycle::try_begin_access`: `try_acquire().is_ok()`; the word
is left unchanged when access is denied. -/
def tryBeginAccess (w : Nat) : Bool × Nat :=
  match tryAcquire w with
  | .ok w' => (true, w')
  | .error _ => (false, w)

/-- `DeviceLifecycle::end_access`: a `release` (the wait-queue
notification has no effect on the packed word). -/
def endAccess (w : Nat) : Nat := releaseW w

/-- `DeviceLifecycle::begin_removal`: flip to Removing only from Active;
returns whether the transition happened. -/
def beginRemoval (w : Nat) : Bool × Nat :=
  if stateOf w = .Active then (true, setRemoving w) else (false, w)

end SC

/-- An access-side operation on the lifecycle word: a committed
`try_acquire` or a `release` (`end_access`). -/
inductive AccessOp where
  | acquire
  | release
deriving DecidableEq, Repr

/-- One access-side step on the packed word (a failed acquire leaves the
word unchanged). -/
def accessStep (w : Nat) (op : AccessOp) : Nat :=
  match op with
  | .acquire =>
    match SC.tryAcquire w with
    | .ok w' => w'
    | .error _ => w
  | .release => SC.releaseW w

/-- Run a sequence of access-side operations. -/
def runAccess (w : Nat) (ops : List AccessOp) : Nat :=
  ops.foldl accessStep w

/-- Trace well-formedness: every `release` is issued while the in-flight
count is positive (spec invariant (iv): each reader/writer holds a count
increment for its whole critical section). -/
def relGuarded (w : Nat) : List AccessOp → Bool
  | [] => true
  | op :: ops =>
    ((op ≠ AccessOp.release) || decide (0 < SC.countOf w)) &&
      relGuarded (accessStep w op) ops

/-! ## Notification queue (`src/notify/queue.rs`) -/

/-- `axdevice_base::IrqType`. -/
inductive IrqType where
  | Primary
  | Additional (idx : Nat)
deriving DecidableEq, Repr

/-- `axdevice_base::DeviceEvent`. -/
inductive DeviceEvent where
  | Irq (t : IrqType)
  | DataReady
  | SpaceAvailable
  | ConfigChanged
  | Custom (v : Nat)
deriving DecidableEq, Repr

/-- `PendingNotification` (`queue.rs`): irq, priority (u8), device id,
timestamp (u64), triggering event. -/
structure PendingNotification where
  irq : Nat
  priority : Nat
  deviceId : Nat
  timestamp : Nat
  event : DeviceEvent
deriving DecidableEq, Repr

/-- `impl Ord for PendingNotification`: compare priorities; on a tie the
comparison of timestamps is reversed so that an earlier timestamp is
greater (popped first from the max-heap). -/
def PendingNotification.cmp (a b : PendingNotification) : Ordering :=
  (compare a.priority b.priority).then (compare b.timestamp a.timestamp)

/-- `BinaryHeap::pop` on the heap's multiset of elements: removes and
returns a maximal element under `PendingNotification.cmp` (the first
maximal one, a deterministic refinement of the unspecified tie order),
or `none` when empty. -/
def popMax : List PendingNotification →
    Option (PendingNotification × List PendingNotification)
  | [] => none
  | x :: xs =>
    match popMax xs with
    | none => some (x, [])
    | some (m, rest) =>
      if PendingNotification.cmp m x = .gt then some (m, x :: rest)
      else some (x, xs)

/-- `TransactionalNotificationQueue`: confirmed max-heap (as its multiset
of elements), pending map `EntryId → PendingNotification` (as an
association list with unique keys), and the `next_entry_id` counter
(a per-queue `AtomicU64`). -/
structure TransactionalNotificationQueue where
  confirmed : List PendingNotification
  pending : List (Nat × PendingNotification)
  nextEntryId : Nat
deriving DecidableEq, Repr

namespace TransactionalNotificationQueue

/-- `TransactionalNotificationQueue::new`. -/
def new : TransactionalNotificationQueue := ⟨[], [], 0⟩

/-- `push_pending`: allocate the next entry id (wrapping u64 counter)
and record the notification in the pending map. -/
def pushPending (q : TransactionalNotificationQueue)
    (n : PendingNotification) : Nat × TransactionalNotificationQueue :=
  (q.nextEntryId,
    { q with
      pending := (q.nextEntryId, n) :: q.pending
      nextEntryId := (q.nextEntryId + 1) % 2 ^ 64 })

/-- `confirm`: if the id is in the pending map, remove it and push its
notification onto the confirmed heap; otherwise a no-op. -/
def confirm (q : TransactionalNotificationQueue) (id : Nat) :
    TransactionalNotificationQueue :=
  match q.pending.find? (fun p => p.1 == id) with
  | some pr =>
    { q with
      pending := q.pending.filter (fun p => !(p.1 == id))
      confirmed := pr.2 :: q.confirmed }
  | none => q

/-- `rollback`: remove the id from the pending map (no-op if absent). -/
def rollback (q : TransactionalNotificationQueue) (id : Nat) :
    TransactionalNotificationQueue :=
  { q with pending := q.pending.filter (fun p => !(p.1 == id)) }

/-- `push`: direct, non-transactional insertion into the confirmed heap. -/
def push (q : TransactionalNotificationQueue) (n : PendingNotification) :
    TransactionalNotificationQueue :=
  { q with confirmed := n :: q.confirmed }

/-- `pop`: remove and return the highest-priority confirmed notification. -/
def pop (q : TransactionalNotificationQueue) :
    Option PendingNotification × TransactionalNotificationQueue :=
  match popMax q.confirmed with
  | none => (none, q)
  | some (m, rest) => (some m, { q with confirmed := rest })

/-- `len`: number of confirmed notifications. -/
def len (q : TransactionalNotificationQueue) : Nat := q.confirmed.length

/-- `pending_count`: number of pending (uncommitted) notifications. -/
def pendingCount (q : TransactionalNotificationQueue) : Nat :=
  q.pending.length

/-- `clear`: clear the confirmed heap. -/
def clear (q : TransactionalNotificationQueue) :
    TransactionalNotificationQueue :=
  { q with confirmed := [] }

/-- `clear_pending`: clear the pending map. -/
def clearPending (q : TransactionalNotificationQueue) :
    TransactionalNotificationQueue :=
  { q with pending := [] }

/-- `clear_all`: clear both. -/
def clearAll (q : TransactionalNotificationQueue) :
    TransactionalNotificationQueue :=
  { q with confirmed := [], pending := [] }

end TransactionalNotificationQueue

/-- An operation on a transactional notification queue. -/
inductive QOp where
  | push (n : PendingNotification)
  | pushPending (n : PendingNotification)
  | confirm (id : Nat)
  | rollback (id : Nat)
  | pop
deriving DecidableEq, Repr

/-- Apply one queue operation (discarding returned values). -/
def applyQOp (q : TransactionalNotificationQueue) :
    QOp → TransactionalNotificationQueue
  | .push n => q.push n
  | .pushPending n => (q.pushPending n).2
  | .confirm id => q.confirm id
  | .rollback id => q.rollback id
  | .pop => q.pop.2

/-- Run a sequence of queue operations. -/
def runQ (q : TransactionalNotificationQueue) (ops : List QOp) :
    TransactionalNotificationQueue :=
  ops.foldl applyQOp q

/-- How many entries one operation adds to the confirmed heap: one for a
direct push, one for a confirm that finds its entry id pending. -/
def addDelta (q : TransactionalNotificationQueue) : QOp → Nat
  | .push _ => 1
  | .confirm id =>
    if (q.pending.find? (fun p => p.1 == id)).isSome then 1 else 0
  | _ => 0

/-- Whether one operation is a pop that returns a notification. -/
def popDelta (q : TransactionalNotificationQueue) : QOp → Nat
  | .pop => if q.confirmed.isEmpty then 0 else 1
  | _ => 0

/-- Number of entries added to the confirmed heap along a run: direct
pushes plus confirms that found their entry id pending. -/
def confirmedAdds (q : TransactionalNotificationQueue) : List QOp → Nat
  | [] => 0
  | op :: ops => addDelta q op + confirmedAdds (applyQOp q op) ops

/-- Number of pops along a run that returned a notification. -/
def popSuccesses (q : TransactionalNotificationQueue) : List QOp → Nat
  | [] => 0
  | op :: ops => popDelta q op + popSuccesses (applyQOp q op) ops

/-- Number of `pushPending` operations in a list. -/
def pushPendingCount : List QOp → Nat
  | [] => 0
  | .pushPending _ :: ops => pushPendingCount ops + 1
  | _ :: ops => pushPendingCount ops

/-- The entry ids handed out by the `pushPending` operations of a run. -/
def pushPendingIds (q : TransactionalNotificationQueue) :
    List QOp → List Nat
  | [] => []
  | .pushPending n :: ops =>
    (q.pushPending n).1 :: pushPendingIds (q.pushPending n).2 ops
  | op :: ops => pushPendingIds (applyQOp q op) ops

/-- Drain a queue by repeatedly calling `pop`, with fuel. -/
def drainF : Nat → TransactionalNotificationQueue →
    List PendingNotification
  | 0, _ => []
  | n + 1, q =>
    match q.pop with
    | (some m, q') => m :: drainF n q'
    | (none, _) => []

/-- Drain a queue completely by repeated `pop`. -/
def TransactionalNotificationQueue.drain
    (q : TransactionalNotificationQueue) : List PendingNotification :=
  drainF q.confirmed.length q

/-- The pop-order relation of the specification: `b` may be popped after
`a` when `b`'s priority is no higher, and on equal priorities `b`'s
timestamp is no older. -/
def popsAfter (a b : PendingNotification) : Prop :=
  b.priority ≤ a.priority ∧
    (b.priority = a.priority → a.timestamp ≤ b.timestamp)

/-- A concrete notification used in witnesses. -/
def pnA : PendingNotification := ⟨32, 100, 1, 0, .DataReady⟩

/-- A second concrete notification used in witnesses. -/
def pnB : PendingNotification := ⟨33, 200, 2, 1, .SpaceAvailable⟩

/-- A concrete queue with one pending entry (id 3), used in witnesses. -/
def qWitness : TransactionalNotificationQueue := ⟨[], [(3, pnA)], 4⟩

/-! ## Poll flags (`src/notify/poll.rs`)

The `RwLock<BTreeMap<DeviceId, AtomicU32>>` is modelled as an
association list with unique keys; u32 flag values embed as `Nat`
(`fetch_or`/`swap`/`load` cannot overflow). -/

/-- Map lookup (`flags.read().get(&device_id)`). -/
def pfFind (pf : List (Nat × Nat)) (id : Nat) : Option Nat :=
  (pf.find? (fun p => p.1 == id)).map (fun p => p.2)

/-- `PollFlags::register`: insert a zeroed flag slot (BTreeMap insert
replaces any existing binding). -/
def pfRegister (pf : List (Nat × Nat)) (id : Nat) : List (Nat × Nat) :=
  (id, 0) :: pf.filter (fun p => !(p.1 == id))

/-- `PollFlags::unregister`: remove the slot. -/
def pfUnregister (pf : List (Nat × Nat)) (id : Nat) : List (Nat × Nat) :=
  pf.filter (fun p => !(p.1 == id))

/-- `PollFlags::set`: atomic `fetch_or` when the id is registered,
returning the previous value; a no-op returning 0 otherwise. -/
def pfSet (pf : List (Nat × Nat)) (id : Nat) (flags : Nat) :
    Nat × List (Nat × Nat) :=
  match pfFind pf id with
  | some old =>
    (old, pf.map (fun p => if p.1 == id then (p.1, p.2 ||| flags) else p))
  | none => (0, pf)

/-- `PollFlags::check_and_clear`: atomic `swap(0)` when registered,
returning the previous value; a no-op returning 0 otherwise. -/
def pfCheckAndClear (pf : List (Nat × Nat)) (id : Nat) :
    Nat × List (Nat × Nat) :=
  match pfFind pf id with
  | some old =>
    (old, pf.map (fun p => if p.1 == id then (p.1, 0) else p))
  | none => (0, pf)

/-- `PollFlags::peek`: atomic load when registered, 0 otherwise. -/
def pfPeek (pf : List (Nat × Nat)) (id : Nat) : Nat :=
  (pfFind pf id).getD 0

/-- Fold a sequence of `set` calls for one device. -/
def pfSetAll (pf : List (Nat × Nat)) (id : Nat) (masks : List Nat) :
    List (Nat × Nat) :=
  masks.foldl (fun s mk => (pfSet s id mk).2) pf

/-! ## Notification manager (`src/notify/manager.rs`) -/

/-- The `axerrno` error kinds used by the modelled operations. -/
inductive AxErr where
  | NotFound
  | BadState
  | InvalidInput
  | AlreadyExists
deriving DecidableEq, Repr

/-- `axdevice_base::NotifyMethod`. -/
inductive NotifyMethod where
  | Interrupt
  | Poll
  | Event
  | Callback
deriving DecidableEq, Repr

/-- `axdevice_base::CpuAffinity`. -/
inductive CpuAffinity where
  | Fixed (cpu : Nat)
  | RoundRobin
  | LoadBalance
  | Broadcast
deriving DecidableEq, Repr

/-- `axdevice_base::NotificationConfig` (the fields the manager reads). -/
structure NotificationConfig where
  method : NotifyMethod
  primaryIrq : Option Nat
  additionalIrqs : List Nat
  cpuAffinity : CpuAffinity
  priority : Nat
deriving DecidableEq, Repr

/-- Modelled from the spec: `DeviceEvent::as_flag` lives in the external
`axdevice_base` crate (out of scope of `src/`); the spec only requires a
deterministic poll-flag bit per variant (e.g. `DataReady=bit0`,
`SpaceAvailable=bit1`). -/
def eventFlag : DeviceEvent → Nat
  | .DataReady => 1
  | .SpaceAvailable => 2
  | .ConfigChanged => 4
  | .Irq _ => 8
  | .Custom _ => 16

/-- Routing-table lookup (`RoutingTable::get`, a `BTreeMap` behind a
reader-writer lock, returning a cloned config). -/
def routingFind (r : List (Nat × NotificationConfig)) (id : Nat) :
    Option NotificationConfig :=
  (r.find? (fun p => p.1 == id)).map (fun p => p.2)

/-- Replace the element at an index (in-place mutation of one vCPU's
queue behind its mutex). -/
def listModify {α : Type} (l : List α) (i : Nat) (f : α → α) : List α :=
  match l, i with
  | [], _ => []
  | x :: xs, 0 => f x :: xs
  | x :: xs, n + 1 => x :: listModify xs n f

/-- `usize::MAX` (64-bit host). -/
def usizeMax : Nat := 2 ^ 64 - 1

/-- The `LoadBalance` scan: choose the queue with minimum current
length, ties broken by lowest index (`min_len` starts at `usize::MAX`,
`selected_cpu` at 0). -/
def lbSelect (qs : List TransactionalNotificationQueue) : Nat :=
  (qs.foldl
    (fun acc q =>
      if q.confirmed.length < acc.2.1 then
        (acc.1 + 1, (q.confirmed.length, acc.1))
      else (acc.1 + 1, acc.2))
    (0, (usizeMax, 0))).2.2

/-- `DeviceNotificationManager`: routing table, per-CPU transactional
interrupt queues, poll flags, per-CPU FIFO event queues, round-robin
counter, global timestamp counter (both u64), CPU count. -/
structure Manager where
  routing : List (Nat × NotificationConfig)
  interruptQueues : List TransactionalNotificationQueue
  pollFlags : List (Nat × Nat)
  eventQueues : List (List PendingNotification)
  nextCpu : Nat
  timestamp : Nat
  cpuCount : Nat

namespace Manager

/-- `DeviceNotificationManager::new(cpu_count)`. -/
def new (n : Nat) : Manager :=
  ⟨[], List.replicate n TransactionalNotificationQueue.new, [],
    List.replicate n [], 0, 0, n⟩

/-- `select_target_cpu`: Fixed → `cpu % cpu_count`; RoundRobin →
post-incremented shared counter mod `cpu_count`; LoadBalance → shortest
queue; Broadcast → CPU 0 (degraded, as in the source). -/
def selectTargetCpu (m : Manager) (c : NotificationConfig) : Nat × Manager :=
  match c.cpuAffinity with
  | .Fixed cpu => (cpu % m.cpuCount, m)
  | .RoundRobin =>
    (m.nextCpu % m.cpuCount, { m with nextCpu := (m.nextCpu + 1) % 2 ^ 64 })
  | .LoadBalance => (lbSelect m.interruptQueues, m)
  | .Broadcast => (0, m)

/-- The IRQ resolution of `inject_interrupt`: primary-IRQ events and
`Custom` need `primary_irq` (else `InvalidInput`);
`Irq(Additional(idx))` is range-checked against `additional_irqs`. -/
def resolveEventIrq (c : NotificationConfig) (e : DeviceEvent) :
    Except AxErr Nat :=
  match e with
  | .Irq .Primary | .DataReady | .SpaceAvailable | .ConfigChanged =>
    match c.primaryIrq with
    | some irq => .ok irq
    | none => .error .InvalidInput
  | .Irq (.Additional idx) =>
    if idx < c.additionalIrqs.length then .ok (c.additionalIrqs.getD idx 0)
    else .error .InvalidInput
  | .Custom _ =>
    match c.primaryIrq with
    | some irq => .ok irq
    | none => .error .InvalidInput

/-- The IRQ resolution of `inject_pending` (legacy `IrqType` API). -/
def resolveIrqType (c : NotificationConfig) (t : IrqType) :
    Except AxErr Nat :=
  match t with
  | .Primary =>
    match c.primaryIrq with
    | some irq => .ok irq
    | none => .error .InvalidInput
  | .Additional idx =>
    if idx < c.additionalIrqs.length then .ok (c.additionalIrqs.getD idx 0)
    else .error .InvalidInput

/-- `inject_interrupt`: resolve the IRQ, select the target CPU, draw a
fresh timestamp (`fetch_add`, so the counter advances even if the CPU
bound check then fails), and push directly onto that CPU's confirmed
heap. -/
def injectInterrupt (m : Manager) (deviceId : Nat)
    (c : NotificationConfig) (e : DeviceEvent) :
    Except AxErr Unit × Manager :=
  match resolveEventIrq c e with
  | .error er => (.error er, m)
  | .ok irq =>
    if (m.selectTargetCpu c).1 < (m.selectTargetCpu c).2.interruptQueues.length then
      (.ok (),
        { (m.selectTargetCpu c).2 with
          timestamp := ((m.selectTargetCpu c).2.timestamp + 1) % 2 ^ 64
          interruptQueues :=
            listModify (m.selectTargetCpu c).2.interruptQueues
              (m.selectTargetCpu c).1
              (fun q => q.push
                ⟨irq, c.priority, deviceId,
                  (m.selectTargetCpu c).2.timestamp, e⟩) })
    else
      (.error .InvalidInput,
        { (m.selectTargetCpu c).2 with
          timestamp := ((m.selectTargetCpu c).2.timestamp + 1) % 2 ^ 64 })

/-- `inject_poll`: OR the event's flag bit into the device's slot. -/
def injectPoll (m : Manager) (deviceId : Nat) (e : DeviceEvent) :
    Except AxErr Unit × Manager :=
  (.ok (), { m with pollFlags := (pfSet m.pollFlags deviceId (eventFlag e)).2 })

/-- `inject_event`: select CPU, stamp a timestamp, append to that CPU's
FIFO event queue (`primary_irq.unwrap_or(0)`). -/
def injectEvent (m : Manager) (deviceId : Nat) (c : NotificationConfig)
    (e : DeviceEvent) : Except AxErr Unit × Manager :=
  if (m.selectTargetCpu c).1 < (m.selectTargetCpu c).2.eventQueues.length then
    (.ok (),
      { (m.selectTargetCpu c).2 with
        timestamp := ((m.selectTargetCpu c).2.timestamp + 1) % 2 ^ 64
        eventQueues :=
          listModify (m.selectTargetCpu c).2.eventQueues
            (m.selectTargetCpu c).1
            (fun q => q ++
              [⟨c.primaryIrq.getD 0, c.priority, deviceId,
                (m.selectTargetCpu c).2.timestamp, e⟩]) })
  else
    (.error .InvalidInput,
      { (m.selectTargetCpu c).2 with
        timestamp := ((m.selectTargetCpu c).2.timestamp + 1) % 2 ^ 64 })

/-- `inject`: look up the device's config and dispatch by method;
`NotFound` for an unregistered device. -/
def inject (m : Manager) (deviceId : Nat) (e : DeviceEvent) :
    Except AxErr Unit × Manager :=
  match routingFind m.routing deviceId with
  | none => (.error .NotFound, m)
  | some c =>
    match c.method with
    | .Interrupt => m.injectInterrupt deviceId c e
    | .Poll => m.injectPoll deviceId e
    | .Event => m.injectEvent deviceId c e
    | .Callback => (.ok (), m)

/-- `inject_pending`: like the interrupt path but `push_pending`; the
CPU bound is checked before the timestamp is drawn (as in the source),
and `(cpu_id, entry_id)` is returned. -/
def injectPending (m : Manager) (deviceId : Nat) (t : IrqType) :
    Except AxErr (Nat × Nat) × Manager :=
  match routingFind m.routing deviceId with
  | none => (.error .NotFound, m)
  | some c =>
    match resolveIrqType c t with
    | .error er => (.error er, m)
    | .ok irq =>
      if (m.selectTargetCpu c).1 < (m.selectTargetCpu c).2.interruptQueues.length then
        (.ok ((m.selectTargetCpu c).1,
            ((m.selectTargetCpu c).2.interruptQueues.getD
              (m.selectTargetCpu c).1 TransactionalNotificationQueue.new).nextEntryId),
          { (m.selectTargetCpu c).2 with
            timestamp := ((m.selectTargetCpu c).2.timestamp + 1) % 2 ^ 64
            interruptQueues :=
              listModify (m.selectTargetCpu c).2.interruptQueues
                (m.selectTargetCpu c).1
                (fun q => (q.pushPending
                  ⟨irq, c.priority, deviceId,
                    (m.selectTargetCpu c).2.timestamp, .Irq t⟩).2) })
      else (.error .InvalidInput, (m.selectTargetCpu c).2)

/-- `confirm_pending`. -/
def confirmPending (m : Manager) (cpu entryId : Nat) : Manager :=
  if cpu < m.interruptQueues.length then
    { m with interruptQueues :=
        listModify m.interruptQueues cpu (fun q => q.confirm entryId) }
  else m

/-- `rollback_pending`. -/
def rollbackPending (m : Manager) (cpu entryId : Nat) : Manager :=
  if cpu < m.interruptQueues.length then
    { m with interruptQueues :=
        listModify m.interruptQueues cpu (fun q => q.rollback entryId) }
  else m

/-- `pop_pending`. -/
def popPending (m : Manager) (cpu : Nat) :
    Option PendingNotification × Manager :=
  if cpu < m.interruptQueues.length then
    ((m.interruptQueues.getD cpu TransactionalNotificationQueue.new).pop.1,
      { m with interruptQueues :=
          listModify m.interruptQueues cpu (fun q => q.pop.2) })
  else (none, m)

/-- `check_poll`. -/
def checkPoll (m : Manager) (deviceId : Nat) : Nat × Manager :=
  ((pfCheckAndClear m.pollFlags deviceId).1,
    { m with pollFlags := (pfCheckAndClear m.pollFlags deviceId).2 })

/-- `peek_poll`. -/
def peekPoll (m : Manager) (deviceId : Nat) : Nat :=
  pfPeek m.pollFlags deviceId

/-- `register_notification`: a Poll-method device also gets a poll-flag
slot (before the routing-table duplicate check, as in the source). -/
def registerNotification (m : Manager) (deviceId : Nat)
    (c : NotificationConfig) : Except AxErr Unit × Manager :=
  let m1 := if c.method = NotifyMethod.Poll then
      { m with pollFlags := pfRegister m.pollFlags deviceId }
    else m
  match routingFind m1.routing deviceId with
  | some _ => (.error .AlreadyExists, m1)
  | none => (.ok (), { m1 with routing := (deviceId, c) :: m1.routing })

/-- `clear_all_pending`: `clear_all` every interrupt queue and clear
every event queue. -/
def clearAllPending (m : Manager) : Manager :=
  { m with
    interruptQueues := m.interruptQueues.map TransactionalNotificationQueue.clearAll
    eventQueues := m.eventQueues.map (fun _ => ([] : List PendingNotification)) }

end Manager
/-- A concrete Interrupt-method config (primary IRQ 32, one additional
IRQ, fixed to CPU 0), used in witnesses. -/
def cfgW : NotificationConfig := ⟨.Interrupt, some 32, [7], .Fixed 0, 100⟩

/-- A concrete two-CPU manager with one registered device, used in
witnesses. -/
def mW : Manager :=
  ⟨[(5, cfgW)], [TransactionalNotificationQueue.new,
    TransactionalNotificationQueue.new], [], [[], []], 0, 0, 2⟩

/-- A concrete queue with one confirmed and one pending entry. -/
def qW8 : TransactionalNotificationQueue := ⟨[pnA], [(0, pnB)], 1⟩

/-- A concrete populated manager, used in the C8 witness. -/
def mW8 : Manager := ⟨[(5, cfgW)], [qW8], [(5, 3)], [[pnA]], 0, 7, 1⟩

/-! ### Claim C9 -/

/-- A config fixed to a given CPU, used in the C9 counterexample. -/
def cfgFixed (irq cpu : Nat) : NotificationConfig :=
  ⟨.Interrupt, some irq, [], .Fixed cpu, 100⟩

/-- A two-CPU manager with two devices pinned to different CPUs. -/
def mTwoCpu : Manager :=
  ⟨[(1, cfgFixed 32 0), (2, cfgFixed 33 1)],
    [TransactionalNotificationQueue.new, TransactionalNotificationQueue.new],
    [], [[], []], 0, 0, 2⟩

/-! ## Device registry (`src/registry.rs`, `src/wrapper.rs`) -/

/-- `axaddrspace::AccessWidth`. -/
inductive AccessWidth where
  | Byte
  | Word
  | Dword
  | Qword
deriving DecidableEq, Repr

/-- A guest-physical address range (`GuestPhysAddrRange::from_start_size`
shape): `[start, start + size)`. -/
structure AddrRange where
  start : Nat
  size : Nat
deriving DecidableEq, Repr

/-- `DeviceAddrRange::contains`. -/
def AddrRange.containsAddr (r : AddrRange) (a : Nat) : Bool :=
  decide (r.start ≤ a) && decide (a < r.start + r.size)

/-- Whether two address ranges overlap. -/
def rangesOverlap (r1 r2 : AddrRange) : Bool :=
  decide (r1.start < r2.start + r2.size) &&
    decide (r2.start < r1.start + r1.size)

/-- `DeviceWrapper`: the packed lifecycle word, the `DeviceStats`
counters (u64), the backend's address ranges and its `handle_read`
behaviour.  The write path is symmetric and not needed by any claim. -/
structure DeviceWrapper where
  lifecycle : Nat
  reads : Nat
  writes : Nat
  errors : Nat
  ranges : List AddrRange
  readFn : Nat → AccessWidth → Except AxErr Nat

/-- `DeviceRegistry`: the `(range, DeviceId)` lookup list, the device
map, and the `next_id` counter (usize, starting at 1). -/
structure DeviceRegistry where
  rangeList : List (AddrRange × Nat)
  devices : List (Nat × DeviceWrapper)
  nextId : Nat

namespace DeviceRegistry

/-- `DeviceRegistry::new`. -/
def new : DeviceRegistry := ⟨[], [], 1⟩

/-- `find_device_id`: linear search, first range containing the
address wins. -/
def findDeviceId (r : DeviceRegistry) (a : Nat) : Option Nat :=
  (r.rangeList.find? (fun p => p.1.containsAddr a)).map (fun p => p.2)

end DeviceRegistry

/-- Device-map lookup (`devices.read().get(&id)`). -/
def devicesFind (ds : List (Nat × DeviceWrapper)) (id : Nat) :
    Option DeviceWrapper :=
  (ds.find? (fun p => p.1 == id)).map (fun p => p.2)

/-- `DeviceWrapper::try_access_for_read`: `try_begin_access` (on failure
record an error and return `BadState`); otherwise call the backend's
`handle_read`, record a read or an error, and `end_access`. -/
def DeviceWrapper.tryAccessForRead (w : DeviceWrapper) (a : Nat)
    (wd : AccessWidth) : Except AxErr Nat × DeviceWrapper :=
  match SC.tryAcquire w.lifecycle with
  | .error _ => (.error .BadState, { w with errors := (w.errors + 1) % 2 ^ 64 })
  | .ok lc1 =>
    match w.readFn a wd with
    | .ok v =>
      (.ok v,
        { w with
          lifecycle := SC.endAccess lc1
          reads := (w.reads + 1) % 2 ^ 64 })
    | .error er =>
      (.error er,
        { w with
          lifecycle := SC.endAccess lc1
          errors := (w.errors + 1) % 2 ^ 64 })

namespace DeviceRegistry

/-- `handle_read`: find the owning device id (`NotFound` if none), look
up its wrapper (`NotFound` if gone), then dispatch through the wrapper
(which updates lifecycle and stats in place). -/
def handleRead (r : DeviceRegistry) (a : Nat) (wd : AccessWidth) :
    Except AxErr Nat × DeviceRegistry :=
  match r.findDeviceId a with
  | none => (.error .NotFound, r)
  | some id =>
    match devicesFind r.devices id with
    | none => (.error .NotFound, r)
    | some w =>
      ((w.tryAccessForRead a wd).1,
        { r with
          devices := r.devices.map (fun p =>
            if p.1 == id then (p.1, (w.tryAccessForRead a wd).2) else p) })

/-- `add_device`: allocate the next id, register every `(range, id)`
row, insert a fresh wrapper (Active, zero stats).  The source's doc
comment promises overlap rejection, but the body only carries a
`TODO: Implement proper overlap detection` and registers the ranges
unconditionally, always returning `Ok`. -/
def addDevice (r : DeviceRegistry) (ranges : List AddrRange)
    (rf : Nat → AccessWidth → Except AxErr Nat) : Nat × DeviceRegistry :=
  (r.nextId,
    { rangeList := r.rangeList ++ ranges.map (fun rg => (rg, r.nextId))
      devices := (r.nextId, ⟨SC.newWord, 0, 0, 0, ranges, rf⟩) :: r.devices
      nextId := (r.nextId + 1) % 2 ^ 64 })

/-- `remove_device`: `NotFound` if the id is absent; `begin_removal`
(`BadState` unless Active); wait for in-flight accesses to drain (a
purely temporal step in this sequential embedding); drop every
`(range, id)` row whose range belongs to this device; `complete_removal`
and erase the wrapper from the device map. -/
def removeDevice (r : DeviceRegistry) (id : Nat) :
    Except AxErr Unit × DeviceRegistry :=
  match devicesFind r.devices id with
  | none => (.error .NotFound, r)
  | some w =>
    if SC.stateOf w.lifecycle = .Active then
      (.ok (),
        { r with
          rangeList := r.rangeList.filter
            (fun p => if p.2 == id then !(w.ranges.contains p.1) else true)
          devices := r.devices.filter (fun p => !(p.1 == id)) })
    else (.error .BadState, r)

end DeviceRegistry
/-- A concrete read backend returning `0x42`. -/
def readBackendA : Nat → AccessWidth → Except AxErr Nat :=
  fun _ _ => .ok 0x42

/-- The concrete range `[0x1000, 0x1100)`. -/
def rangeA : AddrRange := ⟨0x1000, 0x100⟩

/-- The concrete overlapping range `[0x1080, 0x1180)`. -/
def rangeB : AddrRange := ⟨0x1080, 0x100⟩

/-- A registry holding one device with range `rangeA`. -/
def regSingle : DeviceRegistry :=
  (DeviceRegistry.new.addDevice [rangeA] readBackendA).2

/-- The wrapper `regSingle` stores for device 1. -/
def wSingle : DeviceWrapper := ⟨SC.newWord, 0, 0, 0, [rangeA], readBackendA⟩

/-! ### Lifecycle lemmas -/

theorem pow24_eq : (2 : Nat) ^ 24 = 16777216 := by norm_num

theorem pow32_eq : (2 : Nat) ^ 32 = 4294967296 := by norm_num

theorem SC.stateOf_eq_active {w : Nat} (h : SC.stateOf w = .Active) :
    w / 2 ^ 24 = 0 := by
  unfold SC.stateOf at h
  rcases hq : w / 2 ^ 24 with _ | n
  · rfl
  · rw [hq] at h
    rcases n with _ | m <;> simp at h

theorem SC.stateOf_eq_removing {w : Nat} (h : SC.stateOf w = .Removing) :
    w / 2 ^ 24 = 1 := by
  unfold SC.stateOf at h
  rcases hq : w / 2 ^ 24 with _ | n
  · rw [hq] at h; simp at h
  · rcases n with _ | m
    · rfl
    · rw [hq] at h; simp at h

theorem SC.stateOf_of_div_zero {w : Nat} (h : w / 2 ^ 24 = 0) :
    SC.stateOf w = .Active := by
  unfold SC.stateOf; rw [h]

theorem SC.stateOf_of_div_one {w : Nat} (h : w / 2 ^ 24 = 1) :
    SC.stateOf w = .Removing := by
  unfold SC.stateOf; rw [h]

theorem SC.tryAcquire_of_removing {w : Nat} (h : SC.stateOf w = .Removing) :
    SC.tryAcquire w = .error .Removing := by
  have h1 := SC.stateOf_eq_removing h
  unfold SC.tryAcquire
  rw [h1]
  norm_num

theorem SC.tryAcquire_ok {w w' : Nat} (h : SC.tryAcquire w = .ok w') :
    SC.stateOf w = .Active ∧ SC.stateOf w' = .Active ∧
      SC.countOf w' = SC.countOf w + 1 := by
  unfold SC.tryAcquire at h
  split at h
  · exact absurd h (by simp)
  · split at h
    · exact absurd h (by simp)
    · rename_i hstate hcount
      have h0 : w / 2 ^ 24 = 0 := by
        by_contra hne; exact hstate hne
      rw [Except.ok.injEq] at h
      unfold SC.countMask at hcount
      have hmod : w % 2 ^ 24 < 2 ^ 24 := Nat.mod_lt w (by norm_num)
      have hw' : w' = w % 2 ^ 24 + 1 := by rw [← h, h0]; ring
      refine ⟨SC.stateOf_of_div_zero h0, SC.stateOf_of_div_zero ?_, ?_⟩
      · rw [hw']
        rw [pow24_eq] at hcount hmod ⊢
        omega
      · unfold SC.countOf
        rw [hw']
        rw [pow24_eq] at hcount hmod ⊢
        omega

theorem SC.tryAcquire_error_unchanged {w : Nat} {e : DeviceState}
    (h : SC.tryAcquire w = .error e) : SC.tryBeginAccess w = (false, w) := by
  unfold SC.tryBeginAccess
  rw [h]

theorem SC.releaseW_of_pos {w : Nat} (hw : w < 2 ^ 32)
    (hc : 0 < SC.countOf w) : SC.releaseW w = w - 1 := by
  unfold SC.releaseW
  unfold SC.countOf at hc
  rw [pow32_eq] at hw ⊢
  rw [pow24_eq] at hc
  omega

theorem SC.setRemoving_spec (w : Nat) :
    SC.stateOf (SC.setRemoving w) = .Removing ∧
      SC.countOf (SC.setRemoving w) = SC.countOf w := by
  have hmod : w % 2 ^ 24 < 2 ^ 24 := Nat.mod_lt w (by norm_num)
  unfold SC.setRemoving SC.countOf
  constructor
  · apply SC.stateOf_of_div_one
    rw [pow24_eq] at hmod ⊢
    omega
  · rw [pow24_eq] at hmod ⊢
    omega

/-- While the state field is Removing and releases are guarded, the word
keeps state Removing and stays in range. -/
theorem removing_invariant (ops : List AccessOp) :
    ∀ w : Nat, w < 2 ^ 32 → SC.stateOf w = .Removing →
      relGuarded w ops = true →
      SC.stateOf (runAccess w ops) = .Removing ∧ runAccess w ops < 2 ^ 32 := by
  induction ops with
  | nil => intro w hw hs _; exact ⟨hs, hw⟩
  | cons op ops ih =>
    intro w hw hs hg
    simp only [relGuarded, Bool.and_eq_true] at hg
    obtain ⟨hg1, hg2⟩ := hg
    have hstep : SC.stateOf (accessStep w op) = .Removing ∧
        accessStep w op < 2 ^ 32 := by
      cases op with
      | acquire =>
        have he : accessStep w .acquire = w := by
          simp only [accessStep, SC.tryAcquire_of_removing hs]
        rw [he]
        exact ⟨hs, hw⟩
      | release =>
        show SC.stateOf (SC.releaseW w) = _ ∧ SC.releaseW w < 2 ^ 32
        have hc : 0 < SC.countOf w := by
          simp at hg1
          exact hg1
        rw [SC.releaseW_of_pos hw hc]
        have h1 := SC.stateOf_eq_removing hs
        unfold SC.countOf at hc
        constructor
        · apply SC.stateOf_of_div_one
          rw [pow24_eq] at h1 hc ⊢
          omega
        · rw [pow32_eq] at hw ⊢
          omega
    exact ih (accessStep w op) hstep.2 hstep.1 hg2

theorem relGuarded_append_left {w : Nat} {a b : List AccessOp}
    (h : relGuarded w (a ++ b) = true) : relGuarded w a = true := by
  induction a generalizing w with
  | nil => rfl
  | cons op ops ih =>
    simp only [List.cons_append, relGuarded, Bool.and_eq_true] at h ⊢
    exact ⟨h.1, ih h.2⟩

theorem runAccess_append (w : Nat) (a b : List AccessOp) :
    runAccess w (a ++ b) = runAccess (runAccess w a) b := by
  simp [runAccess]

/-! ### Claim C1 -/

/-- C1: after `begin_removal` succeeds in flipping a device's lifecycle
state from Active to Removing, every subsequently committed
`try_acquire` / `try_begin_access` observes the Removing state and fails
with `Err(Removing)`, leaving both the state and the in-flight access
count unchanged; the count is incremented only while the state is
Active, and `begin_removal` returns true only when the state was
Active.  Subsequent traces are arbitrary interleavings of committed
acquires and guarded releases (spec invariant (iv)). -/
theorem C1_removal_blocks_subsequent_acquires :
    (∀ w : Nat, (SC.beginRemoval w).1 = true ↔ SC.stateOf w = .Active) ∧
    (∀ w : Nat, (SC.beginRemoval w).1 = true →
      SC.stateOf (SC.beginRemoval w).2 = .Removing ∧
        SC.countOf (SC.beginRemoval w).2 = SC.countOf w) ∧
    (∀ w w' : Nat, SC.tryAcquire w = .ok w' →
      SC.stateOf w = .Active ∧ SC.stateOf w' = .Active ∧
        SC.countOf w' = SC.countOf w + 1) ∧
    (∀ w : Nat, SC.stateOf w = .Removing →
      SC.tryAcquire w = .error .Removing ∧ SC.tryBeginAccess w = (false, w)) ∧
    (∀ (w : Nat) (pre post : List AccessOp), w < 2 ^ 32 →
      SC.stateOf w = .Removing →
      relGuarded w (pre ++ AccessOp.acquire :: post) = true →
      SC.tryAcquire (runAccess w pre) = .error .Removing ∧
        SC.tryBeginAccess (runAccess w pre) = (false, runAccess w pre)) := by
  refine ⟨?_, ?_, ?_, ?_, ?_⟩
  · intro w
    unfold SC.beginRemoval
    by_cases h : SC.stateOf w = .Active <;> simp [h]
  · intro w hw
    unfold SC.beginRemoval at hw ⊢
    by_cases h : SC.stateOf w = .Active
    · simp only [h, if_pos]
      exact SC.setRemoving_spec w
    · simp [h] at hw
  · intro w w' h
    exact SC.tryAcquire_ok h
  · intro w h
    exact ⟨SC.tryAcquire_of_removing h,
      SC.tryAcquire_error_unchanged (SC.tryAcquire_of_removing h)⟩
  · intro w pre post hw hs hg
    have hpre := relGuarded_append_left hg
    have hinv := removing_invariant pre w hw hs hpre
    exact ⟨SC.tryAcquire_of_removing hinv.1,
      SC.tryAcquire_error_unchanged (SC.tryAcquire_of_removing hinv.1)⟩

/-- Witness for C1 at a concrete Removing word (state=1, count=2) and a
concrete trace ending in a committed acquire. -/
theorem C1_removal_blocks_subsequent_acquires_witness :
    SC.tryAcquire (runAccess 16777218 [AccessOp.release]) = .error .Removing ∧
      SC.tryBeginAccess (runAccess 16777218 [AccessOp.release]) =
        (false, runAccess 16777218 [AccessOp.release]) :=
  C1_removal_blocks_subsequent_acquires.2.2.2.2 16777218 [AccessOp.release] []
    (by decide) (by decide) (by decide)

/-! ### Claim C10 -/

/-- C10: calling `end_access` (or `StateAndCount::release`) when the
in-flight access count is already zero wraps the packed 32-bit word: the
count field becomes `2^24 - 1` and the state field is decremented by one
(modulo 256); in particular a device in the Removing state becomes
Active, because `release` performs an unconditional wrapping
`fetch_sub(1)` on the whole word with no count-is-zero guard. -/
theorem C10_release_at_zero_wraps :
    ∀ w : Nat, w < 2 ^ 32 → SC.countOf w = 0 →
      SC.endAccess w = SC.releaseW w ∧
      SC.countOf (SC.releaseW w) = 2 ^ 24 - 1 ∧
      SC.stateBits (SC.releaseW w) = (SC.stateBits w + 255) % 256 ∧
      (SC.stateOf w = .Removing → SC.stateOf (SC.releaseW w) = .Active) := by
  intro w hw hc
  unfold SC.countOf at hc
  refine ⟨rfl, ?_, ?_, ?_⟩
  · unfold SC.countOf SC.releaseW
    omega
  · unfold SC.stateBits SC.releaseW
    omega
  · intro hs
    have h1 := SC.stateOf_eq_removing hs
    apply SC.stateOf_of_div_zero
    unfold SC.releaseW
    omega

/-- Witness for C10 at the concrete word `Removing, count 0`. -/
theorem C10_release_at_zero_wraps_witness :
    SC.countOf (SC.releaseW 16777216) = 2 ^ 24 - 1 ∧
      SC.stateOf (SC.releaseW 16777216) = .Active :=
  ⟨(C10_release_at_zero_wraps 16777216 (by decide) (by decide)).2.1,
    (C10_release_at_zero_wraps 16777216 (by decide) (by decide)).2.2.2 (by decide)⟩

/-! ### Queue ordering lemmas -/

theorem PendingNotification.cmp_eq_gt_iff (a b : PendingNotification) :
    a.cmp b = .gt ↔
      (b.priority < a.priority ∨
        (a.priority = b.priority ∧ a.timestamp < b.timestamp)) := by
  unfold PendingNotification.cmp
  rcases Nat.lt_trichotomy a.priority b.priority with h | h | h
  · rw [Nat.compare_eq_lt.2 h]
    simp [Ordering.then]
    omega
  · rw [Nat.compare_eq_eq.2 h]
    show compare b.timestamp a.timestamp = .gt ↔ _
    rw [Nat.compare_eq_gt]
    constructor
    · intro hts; exact Or.inr ⟨h, hts⟩
    · rintro (hlt | ⟨_, hts⟩)
      · omega
      · exact hts
  · rw [Nat.compare_eq_gt.2 h]
    simp [Ordering.then]
    exact Or.inl h

theorem PendingNotification.cmp_ne_gt_iff (y m : PendingNotification) :
    y.cmp m ≠ .gt ↔ popsAfter m y := by
  rw [Ne, PendingNotification.cmp_eq_gt_iff]
  unfold popsAfter
  constructor
  · intro h
    constructor
    · omega
    · intro he; omega
  · intro h
    have h1 := h.1
    intro hc
    rcases hc with h2 | ⟨h2, h3⟩
    · omega
    · have := h.2 h2
      omega

theorem PendingNotification.cmp_self_ne_gt (a : PendingNotification) :
    a.cmp a ≠ .gt := by
  rw [Ne, PendingNotification.cmp_eq_gt_iff]
  omega

theorem PendingNotification.cmp_asymm {a b : PendingNotification}
    (h : a.cmp b = .gt) : b.cmp a ≠ .gt := by
  rw [PendingNotification.cmp_eq_gt_iff] at h
  rw [Ne, PendingNotification.cmp_eq_gt_iff]
  omega

theorem PendingNotification.cmp_ne_gt_trans {a b c : PendingNotification}
    (h1 : a.cmp b ≠ .gt) (h2 : b.cmp c ≠ .gt) : a.cmp c ≠ .gt := by
  rw [Ne, PendingNotification.cmp_eq_gt_iff] at h1
  rw [Ne, PendingNotification.cmp_eq_gt_iff] at h2
  rw [Ne, PendingNotification.cmp_eq_gt_iff]
  omega

theorem popMax_cons_isSome (x : PendingNotification)
    (xs : List PendingNotification) : (popMax (x :: xs)).isSome := by
  cases hp : popMax xs with
  | none => simp [popMax, hp]
  | some pr =>
    obtain ⟨m, rest⟩ := pr
    simp only [popMax, hp]
    split <;> simp

theorem popMax_sound :
    ∀ (l : List PendingNotification) (m : PendingNotification)
      (rest : List PendingNotification), popMax l = some (m, rest) →
      m ∈ l ∧ (∀ y ∈ l, y.cmp m ≠ .gt) ∧ (∀ y ∈ rest, y ∈ l) ∧
        rest.length + 1 = l.length := by
  intro l
  induction l with
  | nil => intro m rest h; simp [popMax] at h
  | cons x xs ih =>
    intro m rest h
    cases hp : popMax xs with
    | none =>
      have hnil : xs = [] := by
        cases xs with
        | nil => rfl
        | cons y ys =>
          have hs := popMax_cons_isSome y ys
          rw [hp] at hs
          simp at hs
      subst hnil
      simp only [popMax] at h
      rw [Option.some.injEq, Prod.mk.injEq] at h
      obtain ⟨hm, hr⟩ := h
      subst hm; subst hr
      refine ⟨by simp, ?_, by simp, by simp⟩
      intro y hy
      rw [List.mem_singleton] at hy
      subst hy
      exact PendingNotification.cmp_self_ne_gt y
    | some pr =>
      obtain ⟨m0, rest0⟩ := pr
      obtain ⟨hmem0, hmax0, hsub0, hlen0⟩ := ih m0 rest0 hp
      simp only [popMax, hp] at h
      by_cases hcmp : PendingNotification.cmp m0 x = .gt
      · rw [if_pos hcmp, Option.some.injEq, Prod.mk.injEq] at h
        obtain ⟨hm, hr⟩ := h
        subst hm; subst hr
        refine ⟨List.mem_cons_of_mem _ hmem0, ?_, ?_, by simp; omega⟩
        · intro y hy
          rcases List.mem_cons.1 hy with hy | hy
          · subst hy
            exact PendingNotification.cmp_asymm hcmp
          · exact hmax0 y hy
        · intro y hy
          rcases List.mem_cons.1 hy with hy | hy
          · subst hy; exact List.mem_cons_self _ _
          · exact List.mem_cons_of_mem _ (hsub0 y hy)
      · rw [if_neg hcmp, Option.some.injEq, Prod.mk.injEq] at h
        obtain ⟨hm, hr⟩ := h
        subst hm; subst hr
        refine ⟨List.mem_cons_self _ _, ?_, fun y hy => List.mem_cons_of_mem _ hy, by simp⟩
        intro y hy
        rcases List.mem_cons.1 hy with hy | hy
        · subst hy
          exact PendingNotification.cmp_self_ne_gt y
        · exact PendingNotification.cmp_ne_gt_trans (hmax0 y hy) hcmp

theorem drainF_mem :
    ∀ (n : Nat) (q : TransactionalNotificationQueue)
      (y : PendingNotification), y ∈ drainF n q → y ∈ q.confirmed := by
  intro n
  induction n with
  | zero => intro q y h; simp [drainF] at h
  | succ n ih =>
    intro q y h
    cases hp : popMax q.confirmed with
    | none =>
      simp only [drainF, TransactionalNotificationQueue.pop, hp] at h
      simp at h
    | some pr =>
      obtain ⟨m, rest⟩ := pr
      obtain ⟨hmem, _, hsub, _⟩ := popMax_sound _ _ _ hp
      simp only [drainF, TransactionalNotificationQueue.pop, hp] at h
      rcases List.mem_cons.1 h with h | h
      · subst h; exact hmem
      · exact hsub y (ih _ y h)

theorem drainF_pairwise :
    ∀ (n : Nat) (q : TransactionalNotificationQueue),
      List.Pairwise popsAfter (drainF n q) := by
  intro n
  induction n with
  | zero => intro q; simp [drainF]
  | succ n ih =>
    intro q
    cases hp : popMax q.confirmed with
    | none =>
      simp only [drainF, TransactionalNotificationQueue.pop, hp]
      exact List.Pairwise.nil
    | some pr =>
      obtain ⟨m, rest⟩ := pr
      obtain ⟨_, hmax, hsub, _⟩ := popMax_sound _ _ _ hp
      simp only [drainF, TransactionalNotificationQueue.pop, hp]
      refine List.Pairwise.cons ?_ (ih _)
      intro y hy
      have hyr : y ∈ rest := drainF_mem n _ y hy
      have := hmax y (hsub y hyr)
      exact (PendingNotification.cmp_ne_gt_iff y m).1 this

theorem drainF_length :
    ∀ (n : Nat) (q : TransactionalNotificationQueue),
      q.confirmed.length ≤ n → (drainF n q).length = q.confirmed.length := by
  intro n
  induction n with
  | zero =>
    intro q h
    have : q.confirmed = [] := List.length_eq_zero.1 (Nat.le_zero.1 h)
    simp [drainF, this]
  | succ n ih =>
    intro q h
    cases hp : popMax q.confirmed with
    | none =>
      have hnil : q.confirmed = [] := by
        cases hc : q.confirmed with
        | nil => rfl
        | cons y ys =>
          have hs := popMax_cons_isSome y ys
          rw [← hc, hp] at hs
          simp at hs
      simp only [drainF, TransactionalNotificationQueue.pop, hp]
      simp [hnil]
    | some pr =>
      obtain ⟨m, rest⟩ := pr
      obtain ⟨_, _, _, hlen⟩ := popMax_sound _ _ _ hp
      simp only [drainF, TransactionalNotificationQueue.pop, hp]
      have hle : rest.length ≤ n := by omega
      have := ih { q with confirmed := rest } hle
      simp only [List.length_cons] at this ⊢
      rw [this]
      omega

/-! ### Queue run lemmas -/

theorem runQ_cons (q : TransactionalNotificationQueue) (op : QOp)
    (ops : List QOp) : runQ q (op :: ops) = runQ (applyQOp q op) ops := rfl

theorem pop_snd_fields (q : TransactionalNotificationQueue) :
    (q.pop.2).pending = q.pending ∧ (q.pop.2).nextEntryId = q.nextEntryId := by
  unfold TransactionalNotificationQueue.pop
  cases popMax q.confirmed with
  | none => exact ⟨rfl, rfl⟩
  | some pr => obtain ⟨m, rest⟩ := pr; exact ⟨rfl, rfl⟩

theorem applyQOp_nextEntryId_of_ne (q : TransactionalNotificationQueue)
    (op : QOp) (h : ∀ n, op ≠ .pushPending n) :
    (applyQOp q op).nextEntryId = q.nextEntryId := by
  cases op with
  | pushPending n => exact absurd rfl (h n)
  | push n => rfl
  | confirm id =>
    show (TransactionalNotificationQueue.confirm q id).nextEntryId = _
    unfold TransactionalNotificationQueue.confirm
    split <;> rfl
  | rollback id => rfl
  | pop => exact (pop_snd_fields q).2

theorem applyQOp_pending_sub (q : TransactionalNotificationQueue)
    (op : QOp) (p : Nat × PendingNotification)
    (hp : p ∈ (applyQOp q op).pending) :
    p ∈ q.pending ∨ (∃ n, op = .pushPending n ∧ p.1 = q.nextEntryId) := by
  cases op with
  | push n => exact Or.inl hp
  | pushPending n =>
    simp only [applyQOp, TransactionalNotificationQueue.pushPending] at hp
    rcases List.mem_cons.1 hp with h | h
    · right; exact ⟨n, rfl, by rw [h]⟩
    · exact Or.inl h
  | confirm id =>
    simp only [applyQOp, TransactionalNotificationQueue.confirm] at hp
    cases hf : q.pending.find? (fun x => x.1 == id) with
    | none => simp only [hf] at hp; exact Or.inl hp
    | some pr =>
      simp only [hf] at hp
      exact Or.inl (List.mem_of_mem_filter hp)
  | rollback id =>
    exact Or.inl (List.mem_of_mem_filter hp)
  | pop =>
    rw [show (applyQOp q QOp.pop) = q.pop.2 from rfl, (pop_snd_fields q).1] at hp
    exact Or.inl hp

theorem lenEquation :
    ∀ (ops : List QOp) (q : TransactionalNotificationQueue),
      (runQ q ops).len + popSuccesses q ops = q.len + confirmedAdds q ops := by
  intro ops
  induction ops with
  | nil => intro q; simp [runQ, popSuccesses, confirmedAdds]
  | cons op ops ih =>
    intro q
    rw [runQ_cons]
    have hps : popSuccesses q (op :: ops) =
        popDelta q op + popSuccesses (applyQOp q op) ops := rfl
    have hca : confirmedAdds q (op :: ops) =
        addDelta q op + confirmedAdds (applyQOp q op) ops := rfl
    rw [hps, hca]
    have ih' := ih (applyQOp q op)
    have hdelta : (applyQOp q op).len + popDelta q op =
        q.len + addDelta q op := by
      cases op with
      | push n =>
        simp [applyQOp, TransactionalNotificationQueue.push,
          TransactionalNotificationQueue.len, popDelta, addDelta]
      | pushPending n =>
        simp [applyQOp, TransactionalNotificationQueue.pushPending,
          TransactionalNotificationQueue.len, popDelta, addDelta]
      | confirm id =>
        cases hf : q.pending.find? (fun p => p.1 == id) with
        | none =>
          simp [applyQOp, TransactionalNotificationQueue.confirm, hf,
            TransactionalNotificationQueue.len, popDelta, addDelta]
        | some pr =>
          simp [applyQOp, TransactionalNotificationQueue.confirm, hf,
            TransactionalNotificationQueue.len, popDelta, addDelta]
      | rollback id =>
        simp [applyQOp, TransactionalNotificationQueue.rollback,
          TransactionalNotificationQueue.len, popDelta, addDelta]
      | pop =>
        cases hc : q.confirmed with
        | nil =>
          simp [applyQOp, TransactionalNotificationQueue.pop,
            TransactionalNotificationQueue.len, hc, popMax, popDelta, addDelta]
        | cons x xs =>
          have hs := popMax_cons_isSome x xs
          cases hp : popMax (x :: xs) with
          | none => rw [hp] at hs; simp at hs
          | some pr =>
            obtain ⟨m, rest⟩ := pr
            obtain ⟨_, _, _, hlen⟩ := popMax_sound _ _ _ hp
            simp only [applyQOp, TransactionalNotificationQueue.pop,
              TransactionalNotificationQueue.len, hc, hp, popDelta, addDelta,
              List.isEmpty_cons, List.length_cons]
            simp at hlen ⊢
            omega
    omega

theorem pendingFresh :
    ∀ (ops : List QOp) (q : TransactionalNotificationQueue) (id : Nat),
      id < q.nextEntryId →
      q.nextEntryId + pushPendingCount ops < 2 ^ 64 →
      (∀ p ∈ q.pending, ¬ p.1 = id) →
      ∀ p ∈ (runQ q ops).pending, ¬ p.1 = id := by
  intro ops
  induction ops with
  | nil => intro q id h1 h2 h3; exact h3
  | cons op ops ih =>
    intro q id h1 h2 h3
    rw [runQ_cons]
    cases op with
    | pushPending n =>
      have hcount : pushPendingCount (QOp.pushPending n :: ops) =
          pushPendingCount ops + 1 := rfl
      rw [hcount] at h2
      have hnw : q.nextEntryId + 1 < 2 ^ 64 := by omega
      have hnext : (applyQOp q (QOp.pushPending n)).nextEntryId =
          q.nextEntryId + 1 := Nat.mod_eq_of_lt hnw
      apply ih
      · rw [hnext]; omega
      · rw [hnext]; omega
      · intro p hp
        rcases applyQOp_pending_sub q _ p hp with h | ⟨n', _, hkey⟩
        · exact h3 p h
        · rw [hkey]; omega
    | push n =>
      refine ih _ id ?_ ?_ ?_
      · rw [applyQOp_nextEntryId_of_ne q _ (by intro n'; simp)]; exact h1
      · rw [applyQOp_nextEntryId_of_ne q _ (by intro n'; simp)]; exact h2
      · intro p hp
        rcases applyQOp_pending_sub q _ p hp with h | ⟨n', hop, _⟩
        · exact h3 p h
        · exact absurd hop (by simp)
    | confirm id' =>
      refine ih _ id ?_ ?_ ?_
      · rw [applyQOp_nextEntryId_of_ne q _ (by intro n; simp)]; exact h1
      · rw [applyQOp_nextEntryId_of_ne q _ (by intro n; simp)]; exact h2
      · intro p hp
        rcases applyQOp_pending_sub q _ p hp with h | ⟨n', hop, _⟩
        · exact h3 p h
        · exact absurd hop (by simp)
    | rollback id' =>
      refine ih _ id ?_ ?_ ?_
      · rw [applyQOp_nextEntryId_of_ne q _ (by intro n; simp)]; exact h1
      · rw [applyQOp_nextEntryId_of_ne q _ (by intro n; simp)]; exact h2
      · intro p hp
        rcases applyQOp_pending_sub q _ p hp with h | ⟨n', hop, _⟩
        · exact h3 p h
        · exact absurd hop (by simp)
    | pop =>
      refine ih _ id ?_ ?_ ?_
      · rw [applyQOp_nextEntryId_of_ne q _ (by intro n; simp)]; exact h1
      · rw [applyQOp_nextEntryId_of_ne q _ (by intro n; simp)]; exact h2
      · intro p hp
        rcases applyQOp_pending_sub q _ p hp with h | ⟨n', hop, _⟩
        · exact h3 p h
        · exact absurd hop (by simp)

/-! ### Entry-id lemmas -/

theorem pushPendingIds_ge :
    ∀ (ops : List QOp) (q : TransactionalNotificationQueue),
      q.nextEntryId + pushPendingCount ops < 2 ^ 64 →
      ∀ i ∈ pushPendingIds q ops, q.nextEntryId ≤ i := by
  intro ops
  induction ops with
  | nil => intro q _ i hi; simp [pushPendingIds] at hi
  | cons op ops ih =>
    intro q h2 i hi
    cases op with
    | pushPending n =>
      have hcount : pushPendingCount (QOp.pushPending n :: ops) =
          pushPendingCount ops + 1 := rfl
      rw [hcount] at h2
      have hnw : q.nextEntryId + 1 < 2 ^ 64 := by omega
      have hnext : ((q.pushPending n).2).nextEntryId =
          q.nextEntryId + 1 := Nat.mod_eq_of_lt hnw
      have hids : pushPendingIds q (QOp.pushPending n :: ops) =
          q.nextEntryId :: pushPendingIds (q.pushPending n).2 ops := rfl
      rw [hids] at hi
      rcases List.mem_cons.1 hi with h | h
      · omega
      · have := ih ((q.pushPending n).2) (by rw [hnext]; omega) i h
        rw [hnext] at this
        omega
    | push n =>
      have hnext := applyQOp_nextEntryId_of_ne q (QOp.push n) (by intro n'; simp)
      have := ih (applyQOp q (QOp.push n)) (by rw [hnext]; exact h2) i hi
      rw [hnext] at this
      exact this
    | confirm id' =>
      have hnext := applyQOp_nextEntryId_of_ne q (QOp.confirm id') (by intro n'; simp)
      have := ih (applyQOp q (QOp.confirm id')) (by rw [hnext]; exact h2) i hi
      rw [hnext] at this
      exact this
    | rollback id' =>
      have hnext := applyQOp_nextEntryId_of_ne q (QOp.rollback id') (by intro n'; simp)
      have := ih (applyQOp q (QOp.rollback id')) (by rw [hnext]; exact h2) i hi
      rw [hnext] at this
      exact this
    | pop =>
      have hnext := applyQOp_nextEntryId_of_ne q QOp.pop (by intro n'; simp)
      have := ih (applyQOp q QOp.pop) (by rw [hnext]; exact h2) i hi
      rw [hnext] at this
      exact this

theorem pushPendingIds_sorted :
    ∀ (ops : List QOp) (q : TransactionalNotificationQueue),
      q.nextEntryId + pushPendingCount ops < 2 ^ 64 →
      List.Pairwise (fun a b => a < b) (pushPendingIds q ops) := by
  intro ops
  induction ops with
  | nil => intro q _; simp [pushPendingIds]
  | cons op ops ih =>
    intro q h2
    cases op with
    | pushPending n =>
      have hcount : pushPendingCount (QOp.pushPending n :: ops) =
          pushPendingCount ops + 1 := rfl
      rw [hcount] at h2
      have hnw : q.nextEntryId + 1 < 2 ^ 64 := by omega
      have hnext : ((q.pushPending n).2).nextEntryId =
          q.nextEntryId + 1 := Nat.mod_eq_of_lt hnw
      have hids : pushPendingIds q (QOp.pushPending n :: ops) =
          q.nextEntryId :: pushPendingIds (q.pushPending n).2 ops := rfl
      rw [hids]
      refine List.Pairwise.cons ?_ (ih _ (by rw [hnext]; omega))
      intro i hi
      have := pushPendingIds_ge ops ((q.pushPending n).2)
        (by rw [hnext]; omega) i hi
      rw [hnext] at this
      omega
    | push n =>
      have hnext := applyQOp_nextEntryId_of_ne q (QOp.push n) (by intro n'; simp)
      exact ih (applyQOp q (QOp.push n)) (by rw [hnext]; exact h2)
    | confirm id' =>
      have hnext := applyQOp_nextEntryId_of_ne q (QOp.confirm id') (by intro n'; simp)
      exact ih (applyQOp q (QOp.confirm id')) (by rw [hnext]; exact h2)
    | rollback id' =>
      have hnext := applyQOp_nextEntryId_of_ne q (QOp.rollback id') (by intro n'; simp)
      exact ih (applyQOp q (QOp.rollback id')) (by rw [hnext]; exact h2)
    | pop =>
      have hnext := applyQOp_nextEntryId_of_ne q QOp.pop (by intro n'; simp)
      exact ih (applyQOp q QOp.pop) (by rw [hnext]; exact h2)

/-! ### Claim C2 -/

/-- C2: for the transactional notification queue, an entry created by
`push_pending` is invisible to `pop` until confirmed; `confirm` moves
exactly that entry from the pending map into the heap and `rollback`
discards it; both are no-ops on an unknown `EntryId`; after any sequence
of operations, `len()` equals the number of confirmed entries minus the
number popped (stated additively); and a rolled-back entry id never
reappears in the pending map along any continuation (bounded below
`2^64` fresh ids), hence its entry can never be confirmed into the heap
and never appears in any pop. -/
theorem C2_transactional_queue_no_ghost_entries :
    (∀ (q : TransactionalNotificationQueue) (n : PendingNotification),
      ((q.pushPending n).2).confirmed = q.confirmed ∧
        ((q.pushPending n).2).pop.1 = q.pop.1) ∧
    (∀ (q : TransactionalNotificationQueue) (id : Nat)
      (pr : Nat × PendingNotification),
      q.pending.find? (fun p => p.1 == id) = some pr →
      (q.confirm id).confirmed = pr.2 :: q.confirmed ∧
        (q.confirm id).pending =
          q.pending.filter (fun p => !(p.1 == id))) ∧
    (∀ (q : TransactionalNotificationQueue) (id : Nat),
      (q.rollback id).confirmed = q.confirmed ∧
        (q.rollback id).pending =
          q.pending.filter (fun p => !(p.1 == id))) ∧
    (∀ (q : TransactionalNotificationQueue) (id : Nat),
      q.pending.find? (fun p => p.1 == id) = none →
      q.confirm id = q ∧ q.rollback id = q) ∧
    (∀ (ops : List QOp) (q : TransactionalNotificationQueue),
      (runQ q ops).len + popSuccesses q ops = q.len + confirmedAdds q ops) ∧
    (∀ (q : TransactionalNotificationQueue) (id : Nat) (post : List QOp),
      id < q.nextEntryId →
      q.nextEntryId + pushPendingCount post < 2 ^ 64 →
      ∀ p ∈ (runQ (q.rollback id) post).pending, ¬ p.1 = id) := by
  refine ⟨?_, ?_, ?_, ?_, lenEquation, ?_⟩
  · intro q n
    refine ⟨rfl, ?_⟩
    have hc : ((q.pushPending n).2).confirmed = q.confirmed := rfl
    unfold TransactionalNotificationQueue.pop
    rw [hc]
    cases popMax q.confirmed with
    | none => rfl
    | some pr => obtain ⟨m, rest⟩ := pr; rfl
  · intro q id pr h
    simp [TransactionalNotificationQueue.confirm, h]
  · intro q id
    exact ⟨rfl, rfl⟩
  · intro q id h
    constructor
    · simp only [TransactionalNotificationQueue.confirm, h]
    · have hall := List.find?_eq_none.1 h
      have hfilter : q.pending.filter (fun p => !(p.1 == id)) = q.pending := by
        rw [List.filter_eq_self]
        intro a ha
        have := hall a ha
        simpa using this
      unfold TransactionalNotificationQueue.rollback
      rw [hfilter]
  · intro q id post h1 h2
    apply pendingFresh post (q.rollback id) id h1 h2
    intro p hp
    have := (List.mem_filter.1 hp).2
    simpa using this

/-- Witness for C2 at the concrete queue `qWitness` with pending entry
id 3 and a rollback-then-run continuation. -/
theorem C2_transactional_queue_no_ghost_entries_witness :
    ((qWitness.confirm 3).confirmed = [pnA] ∧
      (qWitness.confirm 3).pending = []) ∧
    (qWitness.confirm 7 = qWitness ∧ qWitness.rollback 7 = qWitness) :=
  ⟨C2_transactional_queue_no_ghost_entries.2.1 qWitness 3 (3, pnA) (by decide),
    C2_transactional_queue_no_ghost_entries.2.2.2.1 qWitness 7 (by decide)⟩

/-! ### Claim C3 -/

/-- C3: for every sequence of queue operations (pushes, or
push_pending-plus-confirm, &c.) starting from the empty queue,
repeatedly calling `pop` drains the queue completely and yields the
entries in non-increasing priority order, and among entries of equal
priority in non-decreasing timestamp order (older first). -/
theorem C3_priority_pop_order (ops : List QOp) :
    List.Pairwise popsAfter
      ((runQ TransactionalNotificationQueue.new ops).drain) ∧
    ((runQ TransactionalNotificationQueue.new ops).drain).length =
      (runQ TransactionalNotificationQueue.new ops).len := by
  constructor
  · exact drainF_pairwise _ _
  · exact drainF_length _ _ (Nat.le_refl _)

/-! ### Manager lemmas -/

theorem lbFold_spec :
    ∀ (qs : List TransactionalNotificationQueue) (i0 ml sel : Nat),
      (qs.foldl
        (fun acc q =>
          if q.confirmed.length < acc.2.1 then
            (acc.1 + 1, (q.confirmed.length, acc.1))
          else (acc.1 + 1, acc.2)) (i0, (ml, sel))).2.2 = sel ∨
      (i0 ≤ (qs.foldl
        (fun acc q =>
          if q.confirmed.length < acc.2.1 then
            (acc.1 + 1, (q.confirmed.length, acc.1))
          else (acc.1 + 1, acc.2)) (i0, (ml, sel))).2.2 ∧
        (qs.foldl
          (fun acc q =>
            if q.confirmed.length < acc.2.1 then
              (acc.1 + 1, (q.confirmed.length, acc.1))
            else (acc.1 + 1, acc.2)) (i0, (ml, sel))).2.2 < i0 + qs.length) := by
  intro qs
  induction qs with
  | nil => intro i0 ml sel; left; rfl
  | cons q qs ih =>
    intro i0 ml sel
    simp only [List.foldl_cons, List.length_cons]
    by_cases hq : q.confirmed.length < ml
    · rw [if_pos hq]
      rcases ih (i0 + 1) q.confirmed.length i0 with h | h
      · right
        rw [h]
        omega
      · right
        omega
    · rw [if_neg hq]
      rcases ih (i0 + 1) ml sel with h | h
      · left; exact h
      · right; omega

theorem lbSelect_lt (qs : List TransactionalNotificationQueue)
    (h : 0 < qs.length) : lbSelect qs < qs.length := by
  unfold lbSelect
  rcases lbFold_spec qs 0 usizeMax 0 with h1 | h1
  · rw [h1]; exact h
  · omega

theorem selectTargetCpu_fields (m : Manager) (c : NotificationConfig) :
    (m.selectTargetCpu c).2.interruptQueues = m.interruptQueues ∧
    (m.selectTargetCpu c).2.timestamp = m.timestamp ∧
    (m.selectTargetCpu c).2.eventQueues = m.eventQueues ∧
    (m.selectTargetCpu c).2.pollFlags = m.pollFlags ∧
    (m.selectTargetCpu c).2.routing = m.routing := by
  cases hc : c.cpuAffinity <;>
    simp [Manager.selectTargetCpu, hc]

theorem selectTargetCpu_lt (m : Manager) (c : NotificationConfig)
    (h0 : 0 < m.cpuCount) (hq : m.interruptQueues.length = m.cpuCount) :
    (m.selectTargetCpu c).1 < m.interruptQueues.length := by
  cases hc : c.cpuAffinity with
  | Fixed cpu =>
    simp only [Manager.selectTargetCpu, hc]
    rw [hq]
    exact Nat.mod_lt _ h0
  | RoundRobin =>
    simp only [Manager.selectTargetCpu, hc]
    rw [hq]
    exact Nat.mod_lt _ h0
  | LoadBalance =>
    simp only [Manager.selectTargetCpu, hc]
    exact lbSelect_lt m.interruptQueues (by omega)
  | Broadcast =>
    simp only [Manager.selectTargetCpu, hc]
    omega

theorem injectInterrupt_ok_spec (m : Manager) (d : Nat)
    (c : NotificationConfig) (e : DeviceEvent) (irq : Nat)
    (hres : Manager.resolveEventIrq c e = .ok irq)
    (hlt : (m.selectTargetCpu c).1 < m.interruptQueues.length) :
    (m.injectInterrupt d c e).1 = .ok () ∧
    (m.injectInterrupt d c e).2.interruptQueues =
      listModify m.interruptQueues (m.selectTargetCpu c).1
        (fun q => q.push ⟨irq, c.priority, d, m.timestamp, e⟩) ∧
    (m.injectInterrupt d c e).2.timestamp = (m.timestamp + 1) % 2 ^ 64 := by
  have hflds := selectTargetCpu_fields m c
  simp only [Manager.injectInterrupt, hres]
  rw [hflds.1, hflds.2.1, if_pos hlt]
  exact ⟨rfl, rfl, rfl⟩

/-! ### Claim C6 -/

/-- C6: `inject` on a device configured with the Interrupt method
resolves the IRQ as follows: `DataReady`, `SpaceAvailable`,
`ConfigChanged`, `Irq(Primary)` and `Custom(_)` map to `primary_irq` and
fail with `InvalidInput` when `primary_irq` is not set;
`Irq(Additional(i))` maps to `additional_irqs[i]` and fails with
`InvalidInput` when `i` is out of range; an unregistered device id fails
with `NotFound`; on success the notification is pushed onto the selected
vCPU's heap carrying the resolved IRQ, the config's priority, and a
fresh monotonic timestamp (the u64 counter's value, which is then
incremented). -/
theorem C6_inject_interrupt_resolution :
    (∀ (m : Manager) (d : Nat) (e : DeviceEvent),
      routingFind m.routing d = none →
      m.inject d e = (.error .NotFound, m)) ∧
    (∀ (m : Manager) (d : Nat) (c : NotificationConfig) (e : DeviceEvent),
      routingFind m.routing d = some c →
      c.method = .Interrupt →
      m.interruptQueues.length = m.cpuCount →
      0 < m.cpuCount →
      ((e = .DataReady ∨ e = .SpaceAvailable ∨ e = .ConfigChanged ∨
          e = .Irq .Primary ∨ (∃ v, e = .Custom v)) →
        (c.primaryIrq = none →
          m.inject d e = (.error .InvalidInput, m)) ∧
        (∀ irq, c.primaryIrq = some irq →
          (m.inject d e).1 = .ok () ∧
          (m.selectTargetCpu c).1 < m.interruptQueues.length ∧
          (m.inject d e).2.interruptQueues =
            listModify m.interruptQueues (m.selectTargetCpu c).1
              (fun q => q.push ⟨irq, c.priority, d, m.timestamp, e⟩) ∧
          (m.inject d e).2.timestamp = (m.timestamp + 1) % 2 ^ 64)) ∧
      (∀ idx, e = .Irq (.Additional idx) →
        (c.additionalIrqs.length ≤ idx →
          m.inject d e = (.error .InvalidInput, m)) ∧
        (idx < c.additionalIrqs.length →
          (m.inject d e).1 = .ok () ∧
          (m.selectTargetCpu c).1 < m.interruptQueues.length ∧
          (m.inject d e).2.interruptQueues =
            listModify m.interruptQueues (m.selectTargetCpu c).1
              (fun q => q.push ⟨c.additionalIrqs.getD idx 0, c.priority, d,
                m.timestamp, e⟩) ∧
          (m.inject d e).2.timestamp = (m.timestamp + 1) % 2 ^ 64))) := by
  constructor
  · intro m d e h
    simp [Manager.inject, h]
  · intro m d c e hfind hmeth hq h0
    have hinj : m.inject d e = m.injectInterrupt d c e := by
      simp [Manager.inject, hfind, hmeth]
    have hflds := selectTargetCpu_fields m c
    have hlt := selectTargetCpu_lt m c h0 hq
    constructor
    · intro hfam
      constructor
      · intro hnone
        have hres : Manager.resolveEventIrq c e = .error .InvalidInput := by
          rcases hfam with rfl | rfl | rfl | rfl | ⟨v, rfl⟩ <;>
            simp [Manager.resolveEventIrq, hnone]
        rw [hinj]
        simp [Manager.injectInterrupt, hres]
      · intro irq hsome
        have hres : Manager.resolveEventIrq c e = .ok irq := by
          rcases hfam with rfl | rfl | rfl | rfl | ⟨v, rfl⟩ <;>
            simp [Manager.resolveEventIrq, hsome]
        rw [hinj]
        have hspec := injectInterrupt_ok_spec m d c e irq hres hlt
        exact ⟨hspec.1, hlt, hspec.2.1, hspec.2.2⟩
    · intro idx he
      subst he
      constructor
      · intro hge
        have hnlt : ¬ idx < c.additionalIrqs.length := by omega
        have hres : Manager.resolveEventIrq c (.Irq (.Additional idx)) =
            .error .InvalidInput := by
          simp [Manager.resolveEventIrq, hnlt]
        rw [hinj]
        simp [Manager.injectInterrupt, hres]
      · intro hlt2
        have hres : Manager.resolveEventIrq c (.Irq (.Additional idx)) =
            .ok (c.additionalIrqs.getD idx 0) := by
          simp [Manager.resolveEventIrq, hlt2]
        rw [hinj]
        have hspec := injectInterrupt_ok_spec m d c _ _ hres hlt
        exact ⟨hspec.1, hlt, hspec.2.1, hspec.2.2⟩

/-- Witness for C6 at the concrete manager `mW`, device 5, `DataReady`. -/
theorem C6_inject_interrupt_resolution_witness :
    (mW.inject 5 .DataReady).1 = .ok () ∧
      (mW.inject 5 .DataReady).2.timestamp = 1 ∧
      (mW.inject 5 .DataReady).2.interruptQueues =
        listModify mW.interruptQueues 0
          (fun q => q.push ⟨32, 100, 5, 0, .DataReady⟩) :=
  have h := (C6_inject_interrupt_resolution.2 mW 5 cfgW .DataReady rfl rfl rfl
    (by decide)).1 (Or.inl rfl)
  have h2 := h.2 32 rfl
  ⟨h2.1, h2.2.2.2, h2.2.2.1⟩

/-! ### Poll-flag lemmas -/

theorem findq_map_update (g : Nat → Nat) :
    ∀ (pf : List (Nat × Nat)) (id : Nat) (pr : Nat × Nat),
      pf.find? (fun p => p.1 == id) = some pr →
      (pf.map (fun p => if p.1 == id then (p.1, g p.2) else p)).find?
        (fun p => p.1 == id) = some (pr.1, g pr.2) := by
  intro pf
  induction pf with
  | nil => intro id pr h; simp at h
  | cons p ps ih =>
    intro id pr h
    cases hb : (p.1 == id) with
    | true =>
      have hcons : List.find? (fun x => x.1 == id) (p :: ps) = some p :=
        List.find?_cons_of_pos ps hb
      rw [hcons] at h
      have hp : p = pr := by injection h
      have hb2 : (((p.1, g p.2) : Nat × Nat).1 == id) = true := by
        simpa using hb
      have hmap : (p :: ps).map
          (fun x => if x.1 == id then (x.1, g x.2) else x) =
          (p.1, g p.2) ::
            ps.map (fun x => if x.1 == id then (x.1, g x.2) else x) := by
        rw [List.map_cons, if_pos hb]
      have hcons2 : List.find? (fun x => x.1 == id)
          ((p.1, g p.2) ::
            ps.map (fun x => if x.1 == id then (x.1, g x.2) else x)) =
          some (p.1, g p.2) :=
        List.find?_cons_of_pos _ hb2
      rw [hmap, hcons2, ← hp]
    | false =>
      have hnb : ¬ ((p.1 == id) = true) := by simp [hb]
      have hcons : List.find? (fun x => x.1 == id) (p :: ps) =
          List.find? (fun x => x.1 == id) ps :=
        List.find?_cons_of_neg ps hnb
      rw [hcons] at h
      have hmap : (p :: ps).map
          (fun x => if x.1 == id then (x.1, g x.2) else x) =
          p :: ps.map (fun x => if x.1 == id then (x.1, g x.2) else x) := by
        rw [List.map_cons, if_neg hnb]
      have hcons2 : List.find? (fun x => x.1 == id)
          (p :: ps.map (fun x => if x.1 == id then (x.1, g x.2) else x)) =
          List.find? (fun x => x.1 == id)
            (ps.map (fun x => if x.1 == id then (x.1, g x.2) else x)) :=
        List.find?_cons_of_neg _ hnb
      rw [hmap, hcons2]
      exact ih id pr h

theorem pfFind_map_update (g : Nat → Nat)
    (pf : List (Nat × Nat)) (id v : Nat) (h : pfFind pf id = some v) :
    pfFind (pf.map (fun p => if p.1 == id then (p.1, g p.2) else p)) id =
      some (g v) := by
  unfold pfFind at h ⊢
  cases hf : pf.find? (fun p => p.1 == id) with
  | none => rw [hf] at h; simp at h
  | some pr =>
    rw [hf] at h
    simp at h
    rw [findq_map_update g pf id pr hf]
    simp [h]

theorem pfSetAll_find :
    ∀ (masks : List Nat) (pf : List (Nat × Nat)) (id v : Nat),
      pfFind pf id = some v →
      pfFind (pfSetAll pf id masks) id =
        some (masks.foldl (fun a mk => a ||| mk) v) := by
  intro masks
  induction masks with
  | nil => intro pf id v h; exact h
  | cons mk masks ih =>
    intro pf id v h
    have hset : (pfSet pf id mk).2 =
        pf.map (fun p => if p.1 == id then (p.1, p.2 ||| mk) else p) := by
      unfold pfSet
      rw [h]
    have hfind : pfFind (pfSet pf id mk).2 id = some (v ||| mk) := by
      rw [hset]
      exact pfFind_map_update (fun x => x ||| mk) pf id v h
    show pfFind (pfSetAll (pfSet pf id mk).2 id masks) id = _
    rw [List.foldl_cons]
    exact ih _ id (v ||| mk) hfind

/-! ### Claim C7 -/

/-- C7: for a device registered for polling (flag slot currently 0),
after `set(id, m1), ..., set(id, mk)` with no intervening check,
`check_and_clear(id)` returns `m1 | m2 | ... | mk` and a subsequent
`peek(id)` returns 0; `set`, `check_and_clear` and `peek` on an
unregistered id are safe no-ops that return 0 and change nothing. -/
theorem C7_poll_flag_or_semantics :
    (∀ (pf : List (Nat × Nat)) (id : Nat) (masks : List Nat),
      pfFind pf id = some 0 →
      (pfCheckAndClear (pfSetAll pf id masks) id).1 =
        masks.foldl (fun a mk => a ||| mk) 0 ∧
      pfPeek (pfCheckAndClear (pfSetAll pf id masks) id).2 id = 0) ∧
    (∀ (pf : List (Nat × Nat)) (id mask : Nat),
      pfFind pf id = none →
      pfSet pf id mask = (0, pf) ∧ pfCheckAndClear pf id = (0, pf) ∧
        pfPeek pf id = 0) := by
  constructor
  · intro pf id masks h
    have hfind := pfSetAll_find masks pf id 0 h
    constructor
    · unfold pfCheckAndClear
      rw [hfind]
    · have hcleared : pfFind (pfCheckAndClear (pfSetAll pf id masks) id).2 id =
          some 0 := by
        unfold pfCheckAndClear
        rw [hfind]
        exact pfFind_map_update (fun _ => 0) _ id _ hfind
      unfold pfPeek
      rw [hcleared]
      rfl
  · intro pf id mask h
    refine ⟨?_, ?_, ?_⟩ <;> simp [pfSet, pfCheckAndClear, pfPeek, h]

/-- Witness for C7: slot 3 starts at 0, masks 1, 4, 5 OR to 5; and id 9
is unregistered. -/
theorem C7_poll_flag_or_semantics_witness :
    ((pfCheckAndClear (pfSetAll [(3, 0)] 3 [1, 4, 5]) 3).1 = 5 ∧
      pfPeek (pfCheckAndClear (pfSetAll [(3, 0)] 3 [1, 4, 5]) 3).2 3 = 0) ∧
    pfSet [(3, 0)] 9 6 = (0, [(3, 0)]) :=
  have h := C7_poll_flag_or_semantics.1 [(3, 0)] 3 [1, 4, 5] (by decide)
  have h2 := C7_poll_flag_or_semantics.2 [(3, 0)] 9 6 (by decide)
  ⟨⟨h.1.trans (by decide), h.2⟩, h2.1⟩

/-! ### Claim C8 -/

/-- C8: `clear_all_pending` empties, for every vCPU, the confirmed
interrupt heap, the pending (uncommitted) map, and the event queue,
while leaving every device's poll flags and the routing table unchanged
(and preserving the per-vCPU structure). -/
theorem C8_clear_all_pending_frame :
    ∀ m : Manager,
      (∀ q ∈ (m.clearAllPending).interruptQueues,
        q.confirmed = [] ∧ q.pending = []) ∧
      (∀ ev ∈ (m.clearAllPending).eventQueues, ev = []) ∧
      (m.clearAllPending).pollFlags = m.pollFlags ∧
      (m.clearAllPending).routing = m.routing ∧
      (m.clearAllPending).interruptQueues.length =
        m.interruptQueues.length ∧
      (m.clearAllPending).eventQueues.length = m.eventQueues.length := by
  intro m
  refine ⟨?_, ?_, rfl, rfl, by simp [Manager.clearAllPending],
    by simp [Manager.clearAllPending]⟩
  · intro q hq
    simp only [Manager.clearAllPending] at hq
    rw [List.mem_map] at hq
    obtain ⟨q0, _, hq0⟩ := hq
    rw [← hq0]
    exact ⟨rfl, rfl⟩
  · intro ev hev
    simp only [Manager.clearAllPending] at hev
    rw [List.mem_map] at hev
    obtain ⟨e0, _, he0⟩ := hev
    exact he0.symm

/-- Witness for C8 at the concrete manager `mW8`. -/
theorem C8_clear_all_pending_frame_witness :
    (((mW8.clearAllPending).interruptQueues.getD 0
        TransactionalNotificationQueue.new).confirmed = [] ∧
      ((mW8.clearAllPending).interruptQueues.getD 0
        TransactionalNotificationQueue.new).pending = []) ∧
    (mW8.clearAllPending).pollFlags = mW8.pollFlags ∧
    (mW8.clearAllPending).routing = mW8.routing :=
  have h := C8_clear_all_pending_frame mW8
  have hq := h.1 ((mW8.clearAllPending).interruptQueues.getD 0
    TransactionalNotificationQueue.new) (by decide)
  ⟨hq, h.2.2.1, h.2.2.2.1⟩

/-- C9 counterexample: `next_entry_id` is a per-queue counter, not a
shared one, so `inject_pending` for devices routed to different vCPUs
returns the same `EntryId` (0) twice — refuting the claim that every
EntryId returned by `push_pending` is distinct from every other EntryId
ever returned. -/
theorem C9_entry_ids_not_globally_unique :
    (mTwoCpu.injectPending 1 .Primary).1 = .ok (0, 0) ∧
      ((mTwoCpu.injectPending 1 .Primary).2.injectPending 2 .Primary).1 =
        .ok (1, 0) := by
  constructor
  · rfl
  · rfl

/-- C9 (amended): EntryIds are drawn from a per-queue u64 counter, so
the ids returned by successive `push_pending` calls on one queue are
strictly increasing — hence pairwise distinct — as long as the counter
does not wrap (fewer than `2^64` allocations); ids returned for the
queues of different vCPUs may coincide. -/
theorem C9_entry_ids_distinct_per_queue :
    ∀ (q : TransactionalNotificationQueue) (ops : List QOp),
      q.nextEntryId + pushPendingCount ops < 2 ^ 64 →
      List.Pairwise (fun a b => a < b) (pushPendingIds q ops) ∧
      List.Pairwise (fun a b => a ≠ b) (pushPendingIds q ops) := by
  intro q ops h
  have hs := pushPendingIds_sorted ops q h
  exact ⟨hs, hs.imp (fun hab => Nat.ne_of_lt hab)⟩

/-- Witness for C9 (amended) on a concrete two-push run. -/
theorem C9_entry_ids_distinct_per_queue_witness :
    List.Pairwise (fun a b => a ≠ b)
      (pushPendingIds TransactionalNotificationQueue.new
        [QOp.pushPending pnA, QOp.pushPending pnB]) :=
  (C9_entry_ids_distinct_per_queue TransactionalNotificationQueue.new
    [QOp.pushPending pnA, QOp.pushPending pnB] (by decide)).2

/-! ### Registry lemmas -/

theorem SC.tryAcquire_of_active {w : Nat} (hs : SC.stateOf w = .Active)
    (hc : SC.countOf w < 2 ^ 24 - 1) :
    SC.tryAcquire w = .ok (w / 2 ^ 24 * 2 ^ 24 + (w % 2 ^ 24 + 1)) := by
  have h0 := SC.stateOf_eq_active hs
  unfold SC.countOf at hc
  unfold SC.tryAcquire
  rw [if_neg (by omega), if_neg (by unfold SC.countMask; omega)]

/-! ### Claim C4 -/

/-- C4: for any device registered in the registry with id `d` (Active,
with in-flight count below the 24-bit cap), `handle_read` at an address
inside one of `d`'s registered ranges dispatches to `d`'s backend and
returns its result; after a successful `remove_device(d)`, `handle_read`
at the same address returns `NotFound` and leaves the registry — hence
every device's stats — untouched, so the removed device's stats record
no new read from that call.  The hypotheses tie the registry rows for
`d` to its wrapper's ranges and assume no other device's row covers the
address (registry invariant (iii): active devices' ranges are
disjoint). -/
theorem C4_registry_read_roundtrip :
    ∀ (r : DeviceRegistry) (id : Nat) (w : DeviceWrapper) (a : Nat)
      (wd : AccessWidth),
      devicesFind r.devices id = some w →
      SC.stateOf w.lifecycle = .Active →
      SC.countOf w.lifecycle < 2 ^ 24 - 1 →
      (∃ p, p ∈ r.rangeList ∧ p.2 = id ∧ p.1.containsAddr a = true) →
      (∀ p ∈ r.rangeList, p.2 = id → p.1 ∈ w.ranges) →
      (∀ p ∈ r.rangeList, p.2 ≠ id → p.1.containsAddr a = false) →
      (r.handleRead a wd).1 = w.readFn a wd ∧
      (r.removeDevice id).1 = .ok () ∧
      (r.removeDevice id).2.handleRead a wd =
        (.error .NotFound, (r.removeDevice id).2) := by
  intro r id w a wd hdev hact hcnt hex hrows hother
  have hfind : r.findDeviceId a = some id := by
    unfold DeviceRegistry.findDeviceId
    have hsome : (r.rangeList.find? (fun p => p.1.containsAddr a)).isSome := by
      apply List.find?_isSome.2
      obtain ⟨p, hp, hpid, hpc⟩ := hex
      exact ⟨p, hp, hpc⟩
    cases hf : r.rangeList.find? (fun p => p.1.containsAddr a) with
    | none => rw [hf] at hsome; simp at hsome
    | some p0 =>
      have hp00 := List.find?_some (p := fun (q : AddrRange × Nat) => q.1.containsAddr a) hf
      have hp0 : p0.1.containsAddr a = true := hp00
      have hmem := List.mem_of_find?_eq_some hf
      have hpid : p0.2 = id := by
        by_contra hne
        have hfalse := hother p0 hmem hne
        rw [hfalse] at hp0
        simp at hp0
      simp [hpid]
  have hacq := SC.tryAcquire_of_active hact hcnt
  have hread1 : (r.handleRead a wd).1 = w.readFn a wd := by
    simp only [DeviceRegistry.handleRead, hfind, hdev]
    simp only [DeviceWrapper.tryAccessForRead, hacq]
    cases hr : w.readFn a wd <;> simp [hr]
  refine ⟨hread1, ?_, ?_⟩
  · simp [DeviceRegistry.removeDevice, hdev, hact]
  · have hrem : (r.removeDevice id).2 =
        { r with
          rangeList := r.rangeList.filter
            (fun p => if p.2 == id then !(w.ranges.contains p.1) else true)
          devices := r.devices.filter (fun p => !(p.1 == id)) } := by
      simp [DeviceRegistry.removeDevice, hdev, hact]
    have hfq : (r.rangeList.filter
        (fun p => if p.2 == id then !(w.ranges.contains p.1) else true)).find?
        (fun p => p.1.containsAddr a) = none := by
      rw [List.find?_eq_none]
      intro p hp
      have hmem := List.mem_of_mem_filter hp
      have hcond := (List.mem_filter.1 hp).2
      by_cases hpid : p.2 = id
      · have hin := hrows p hmem hpid
        have hb : (p.2 == id) = true := by simp [hpid]
        rw [if_pos hb] at hcond
        have hct : w.ranges.contains p.1 = true := List.elem_iff.2 hin
        rw [hct] at hcond
        simp at hcond
      · have := hother p hmem hpid
        simp [this]
    have hfind' : (r.removeDevice id).2.findDeviceId a = none := by
      rw [hrem]
      unfold DeviceRegistry.findDeviceId
      rw [hfq]
      rfl
    simp only [DeviceRegistry.handleRead, hfind']

/-- Witness for C4 at the concrete registry `regSingle`. -/
theorem C4_registry_read_roundtrip_witness :
    (regSingle.handleRead 0x1050 AccessWidth.Dword).1 = .ok 0x42 ∧
      (regSingle.removeDevice 1).1 = .ok () ∧
      (regSingle.removeDevice 1).2.handleRead 0x1050 AccessWidth.Dword =
        (.error .NotFound, (regSingle.removeDevice 1).2) :=
  have h := C4_registry_read_roundtrip regSingle 1 wSingle 0x1050
    AccessWidth.Dword rfl (by decide) (by decide) (by decide) (by decide)
    (by decide)
  ⟨h.1, h.2.1, h.2.2⟩

/-! ### Claim C5 -/

/-- C5 (code bug evidence): `add_device`'s own doc comment promises to
reject a device whose range overlaps an existing device's range, and
the spec requires the overlap check, but the body contains only a
`TODO: Implement proper overlap detection`.  Evaluating the model at
the failing input: `rangeA = [0x1000, 0x1100)` is registered as
device 1, then the overlapping `rangeB = [0x1080, 0x1180)` is accepted
as device 2, leaving two overlapping rows of distinct active devices
registered. -/
theorem C5_overlap_not_rejected :
    rangesOverlap rangeA rangeB = true ∧
    (DeviceRegistry.new.addDevice [rangeA] readBackendA).1 = 1 ∧
    ((DeviceRegistry.new.addDevice [rangeA] readBackendA).2.addDevice
      [rangeB] readBackendA).1 = 2 ∧
    ((DeviceRegistry.new.addDevice [rangeA] readBackendA).2.addDevice
      [rangeB] readBackendA).2.rangeList = [(rangeA, 1), (rangeB, 2)] ∧
    (devicesFind ((DeviceRegistry.new.addDevice [rangeA]
      readBackendA).2.addDevice [rangeB] readBackendA).2.devices 2).isSome =
      true ∧
    (devicesFind ((DeviceRegistry.new.addDevice [rangeA]
      readBackendA).2.addDevice [rangeB] readBackendA).2.devices 1).isSome =
      true := by
  refine ⟨by decide, rfl, rfl, rfl, rfl, rfl⟩

end Axdevice
